import Mathlib

/-!
Verification development for the UPI QR-code generator
(`src/lib/upi/qr-generator.ts`).  The TypeScript source is shallowly
embedded: machine numbers become `Nat`, JS arrays become `List`s, the
module matrix (cells `number | null`) becomes `List (List (Option Nat))`,
and the one operation that can throw in the encoder
(`'0'.repeat(termLen)` with a negative `termLen`, a `RangeError`) is
modelled by an `Option` result, `none` standing for the thrown exception.
JS strings are modelled by Lean `String`; `charCodeAt` is modelled by
`Char.toNat`, which agrees with JS for every code point below `0x10000`
(the claims that quantify over strings carry the byte-range hypotheses
they need).
-/

namespace UpiQr

/-! ### Galois-field tables (source lines 46-62)

The source builds `EXP_TABLE`/`LOG_TABLE` with a 256-iteration loop:
`EXP_TABLE[i] = x; LOG_TABLE[x] = i; x *= 2; if (x >= 256) x ^= 0x11d`.
`LOG_TABLE` slots that the loop never writes (only index 0) keep the
default `0`; the source leaves them `undefined`, but `gfMul` never reads
`LOG_TABLE[0]` because of its zero guard, so the default is unobservable. -/

structure GfState where
  x : Nat
  exp : List Nat
  log : List Nat

def gfStep (s : GfState) (i : Nat) : GfState :=
  let exp := s.exp.set i s.x
  let log := s.log.set s.x i
  let x2 := s.x * 2
  ⟨if x2 ≥ 256 then x2 ^^^ 0x11d else x2, exp, log⟩

def gfTables : GfState :=
  (List.range 256).foldl gfStep ⟨1, List.replicate 256 0, List.replicate 256 0⟩

def EXP_TABLE : List Nat := gfTables.exp

def LOG_TABLE : List Nat := gfTables.log

/-- `gfMul` (source lines 59-62): `if (a === 0 || b === 0) return 0;
return EXP_TABLE[(LOG_TABLE[a] + LOG_TABLE[b]) % 255]`. -/
def gfMul (a b : Nat) : Nat :=
  if a = 0 ∨ b = 0 then 0
  else EXP_TABLE.getD ((LOG_TABLE.getD a 0 + LOG_TABLE.getD b 0) % 255) 0

/-! ### Reed-Solomon (source lines 64-89) -/

/-- One iteration of `rsGenPoly`'s loop: the source allocates
`newPoly` (zero-filled, one longer) and sets
`newPoly[j] ^= poly[j]; newPoly[j+1] ^= gfMul(poly[j], EXP_TABLE[i])`,
i.e. the new polynomial is `poly` (shifted by 0) XOR
`gfMul(poly, EXP_TABLE[i])` shifted by 1. -/
def rsGenStep (poly : List Nat) (i : Nat) : List Nat :=
  List.zipWith (fun u v => u ^^^ v) (poly ++ [0])
    (0 :: poly.map (fun p => gfMul p (EXP_TABLE.getD i 0)))

def rsGenPoly (ecLen : Nat) : List Nat :=
  (List.range ecLen).foldl rsGenStep [1]

/-- `rsEncode` (source lines 77-89): polynomial division of
`data ++ zeros` by the generator; returns the remainder. -/
def rsEncode (data : List Nat) (ecLen : Nat) : List Nat :=
  let gen := rsGenPoly ecLen
  let msg := data ++ List.replicate ecLen 0
  let out := (List.range data.length).foldl (fun msg i =>
    let coef := msg.getD i 0
    if coef ≠ 0 then
      (List.range gen.length).foldl (fun m j =>
        m.set (i + j) ((m.getD (i + j) 0) ^^^ gfMul (gen.getD j 0) coef)) msg
    else msg) msg
  out.drop data.length

/-! ### Version table and `pickVersion` (source lines 91-126) -/

/-- One row of `VERSION_TABLE`:
`[version, totalCodewords, ecCodewordsPerBlock, group1Blocks, group1DataCw,
group2Blocks, group2DataCw]`. -/
structure VEntry where
  ver : Nat
  totalCw : Nat
  ecPerBlock : Nat
  g1b : Nat
  g1d : Nat
  g2b : Nat
  g2d : Nat

def VERSION_TABLE : List VEntry :=
  [⟨1, 16, 10, 1, 16, 0, 0⟩,
   ⟨2, 28, 16, 1, 28, 0, 0⟩,
   ⟨3, 44, 26, 1, 44, 0, 0⟩,
   ⟨4, 64, 18, 2, 32, 0, 0⟩,
   ⟨5, 86, 24, 2, 43, 0, 0⟩,
   ⟨6, 108, 16, 4, 27, 0, 0⟩,
   ⟨7, 124, 18, 4, 31, 0, 0⟩,
   ⟨8, 152, 22, 2, 38, 2, 38⟩,
   ⟨9, 180, 22, 3, 36, 2, 36⟩,
   ⟨10, 216, 26, 4, 43, 1, 43⟩]

/-- Result record of `pickVersion`. -/
structure PickResult where
  version : Nat
  totalDcw : Nat
  ecCwPerBlock : Nat
  blocks : List (Nat × Nat)

/-- The per-entry block list: `g1b` copies of `[g1d, ecPerBlock]` followed
by `g2b` copies of `[g2d, ecPerBlock]` (source lines 108-110 and 122-124). -/
def entryBlocks (e : VEntry) : List (Nat × Nat) :=
  List.replicate e.g1b (e.g1d, e.ecPerBlock) ++ List.replicate e.g2b (e.g2d, e.ecPerBlock)

/-- `blocks.reduce((s, b) => s + b[0], 0)` (source lines 111 and 129). -/
def reduceDcw (blocks : List (Nat × Nat)) : Nat :=
  blocks.foldl (fun s b => s + b.1) 0

/-- The `for (const ... of VERSION_TABLE)` loop of `pickVersion`
(source lines 107-119), with the fall-through to the version-10 entry
`VERSION_TABLE[9]` (source lines 121-125). -/
def pickLoop (dataLen : Nat) : List VEntry → PickResult
  | [] =>
    let e := VERSION_TABLE.getD 9 ⟨0, 0, 0, 0, 0, 0, 0⟩
    ⟨e.ver, e.totalCw, e.ecPerBlock, entryBlocks e⟩
  | e :: rest =>
    let blocks := entryBlocks e
    let totalDataCw := reduceDcw blocks
    let countBits := if e.ver ≤ 9 then 8 else 16
    let totalBits := 4 + countBits + dataLen * 8
    if totalBits ≤ totalDataCw * 8 then ⟨e.ver, e.totalCw, e.ecPerBlock, blocks⟩
    else pickLoop dataLen rest

def pickVersion (dataLen : Nat) : PickResult :=
  pickLoop dataLen VERSION_TABLE

/-! ### Bitstream encoder (source lines 128-171)

The JS code builds the bit stream as a string of `'0'`/`'1'` characters;
here it is a `List Nat` of binary digits. -/

/-- Auxiliary for `n.toString(2)`: binary digits, most significant first.
The fuel argument is structural so that the definition reduces in the
kernel; `n + 1` units always suffice. -/
def natToBitsAux : Nat → Nat → List Nat
  | 0, _ => []
  | fuel + 1, n => if n = 0 then [] else natToBitsAux fuel (n / 2) ++ [n % 2]

/-- `n.toString(2)` as a digit list (`0 → "0"`). -/
def natToBits (n : Nat) : List Nat :=
  if n = 0 then [0] else natToBitsAux (n + 1) n

/-- `s.padStart(width, '0')`: prepend zeros up to `width`; a longer input
is returned unchanged. -/
def padStartZeros (bits : List Nat) (width : Nat) : List Nat :=
  List.replicate (width - bits.length) 0 ++ bits

/-- `charCode.toString(2).padStart(8, '0')` (source line 137). -/
def byteBits (c : Nat) : List Nat :=
  padStartZeros (natToBits c) 8

/-- Slice a digit list into 8-digit chunks (source lines 154-157);
fuel-structural so it reduces in the kernel. -/
def chunks8 : Nat → List Nat → List (List Nat)
  | 0, _ => []
  | _, [] => []
  | fuel + 1, l => l.take 8 :: chunks8 fuel (l.drop 8)

/-- `parseInt(chunk, 2)` on a binary-digit chunk. -/
def bitsToNat (l : List Nat) : Nat :=
  l.foldl (fun a b => a * 2 + b) 0

/-- The block-splitting fold of `encodeDataByte` (source lines 160-168):
walks the block table, slicing `dcw` data codewords per block and
RS-encoding each slice. -/
def splitBlocks (codewords : List Nat) (blocks : List (Nat × Nat)) :
    List (List Nat) × List (List Nat) :=
  let fin := blocks.foldl
    (fun (acc : (List (List Nat) × List (List Nat)) × Nat) b =>
      let block := (codewords.drop acc.2).take b.1
      ((acc.1.1 ++ [block], acc.1.2 ++ [rsEncode block b.2]), acc.2 + b.1))
    (([], []), 0)
  fin.1

/-- `encodeDataByte` (source lines 128-171).  The `data` argument is the
list of `charCodeAt` values.  The source computes
`termLen = Math.min(4, capacity - bits.length)` and runs
`'0'.repeat(termLen)`; when `bits.length > capacity` the count is
negative and `String.prototype.repeat` throws a `RangeError` — modelled
here by returning `none`. -/
def encodeDataByte (data : List Nat) (version : Nat) (blocks : List (Nat × Nat)) :
    Option (List (List Nat) × List (List Nat)) :=
  let totalDataCw := reduceDcw blocks
  let countBits := if version ≤ 9 then 8 else 16
  let bits := [0, 1, 0, 0] ++ padStartZeros (natToBits data.length) countBits
    ++ (data.map byteBits).flatten
  let capacity := totalDataCw * 8
  if capacity < bits.length then none
  else
    let termLen := min 4 (capacity - bits.length)
    let bits := bits ++ List.replicate termLen 0
    let bits := bits ++ List.replicate ((8 - bits.length % 8) % 8) 0
    let padCount := (capacity - bits.length) / 8
    let bits := bits ++
      ((List.range padCount).map (fun i => byteBits (if i % 2 = 0 then 0xec else 0x11))).flatten
    let codewords := (chunks8 bits.length bits).map bitsToNat
    some (splitBlocks codewords blocks)

/-- `interleave` (source lines 173-188): round-robin over the data blocks
up to the longest block, then the same over the EC blocks. -/
def interleave (dataBlocks ecBlocks : List (List Nat)) : List Nat :=
  let maxDataLen := (dataBlocks.map List.length).foldl max 0
  let d := (List.range maxDataLen).flatMap (fun i => dataBlocks.filterMap (fun b => b.get? i))
  let maxEcLen := (ecBlocks.map List.length).foldl max 0
  d ++ (List.range maxEcLen).flatMap (fun i => ecBlocks.filterMap (fun b => b.get? i))

/-! ### Matrix builder (source lines 190-262)

`(number | null)[][]` becomes `List (List (Option Nat))`. -/

abbrev QMatrix : Type := List (List (Option Nat))

/-- `matrix[r][c]` (out of bounds reads yield `none`; the source never
reads out of bounds). -/
def mcell (m : QMatrix) (r c : Nat) : Option Nat :=
  ((List.getD m r []).getD c none)

/-- `matrix[r][c] = v` (out of bounds writes are no-ops; the source never
writes out of bounds). -/
def msetCell (m : QMatrix) (r c v : Nat) : QMatrix :=
  List.set m r ((List.getD m r []).set c (some v))

/-- `ALIGNMENT_POSITIONS` (source lines 191-201); versions without an
entry give `[]` (JS `undefined`, which is falsy in the `&&` guard). -/
def alignmentPositions : Nat → List Nat
  | 2 => [6, 18]
  | 3 => [6, 22]
  | 4 => [6, 26]
  | 5 => [6, 30]
  | 6 => [6, 34]
  | 7 => [6, 22, 38]
  | 8 => [6, 24, 42]
  | 9 => [6, 26, 46]
  | 10 => [6, 28, 52]
  | _ => []

/-- `drawFinder` (source lines 208-222): 9x9 sweep at offsets `-1..7`
around `(row, col)` with the source's bounds guard. -/
def drawFinder (size : Nat) (m : QMatrix) (row col : Nat) : QMatrix :=
  (List.range 9).foldl (fun m ri =>
    (List.range 9).foldl (fun m ci =>
      let r : Int := (ri : Int) - 1
      let c : Int := (ci : Int) - 1
      let mr : Int := (row : Int) + r
      let mc : Int := (col : Int) + c
      if mr < 0 ∨ mr ≥ (size : Int) ∨ mc < 0 ∨ mc ≥ (size : Int) then m
      else
        let v : Nat :=
          if r = -1 ∨ r = 7 ∨ c = -1 ∨ c = 7 then 0
          else if (r = 0 ∨ r = 6) ∨ (c = 0 ∨ c = 6) ∨ (2 ≤ r ∧ r ≤ 4 ∧ 2 ≤ c ∧ c ≤ 4) then 1
          else 0
        msetCell m mr.toNat mc.toNat v) m) m

/-- The three `drawFinder` calls (source lines 223-225). -/
def finderStage (size : Nat) (m : QMatrix) : QMatrix :=
  drawFinder size (drawFinder size (drawFinder size m 0 0) 0 (size - 7)) (size - 7) 0

/-- Timing patterns (source lines 228-231): `for (let i = 8; i < size - 8; i++)`. -/
def timingStage (size : Nat) (m : QMatrix) : QMatrix :=
  (List.range size).foldl (fun m i =>
    if 8 ≤ i ∧ i < size - 8 then
      let m := if mcell m 6 i = none then msetCell m 6 i (if i % 2 = 0 then 1 else 0) else m
      if mcell m i 6 = none then msetCell m i 6 (if i % 2 = 0 then 1 else 0) else m
    else m) m

/-- Alignment patterns (source lines 237-250). -/
def alignmentStage (version size : Nat) (m : QMatrix) : QMatrix :=
  if 2 ≤ version ∧ alignmentPositions version ≠ [] then
    (alignmentPositions version).foldl (fun m row =>
      (alignmentPositions version).foldl (fun m col =>
        if mcell m row col ≠ none then m
        else
          (List.range 5).foldl (fun m ri =>
            (List.range 5).foldl (fun m ci =>
              let r : Int := (ri : Int) - 2
              let c : Int := (ci : Int) - 2
              let v : Nat := if r.natAbs = 2 ∨ c.natAbs = 2 ∨ (r = 0 ∧ c = 0) then 1 else 0
              msetCell m ((row : Int) + r).toNat ((col : Int) + c).toNat v) m) m) m) m
  else m

/-- Format-info reservation (source lines 253-259). -/
def formatReserveStage (size : Nat) (m : QMatrix) : QMatrix :=
  let m := (List.range 8).foldl (fun m i =>
    let m := if mcell m 8 i = none then msetCell m 8 i 0 else m
    let m := if mcell m i 8 = none then msetCell m i 8 0 else m
    let m := if mcell m 8 (size - 1 - i) = none then msetCell m 8 (size - 1 - i) 0 else m
    if mcell m (size - 1 - i) 8 = none then msetCell m (size - 1 - i) 8 0 else m) m
  if mcell m 8 8 = none then msetCell m 8 8 0 else m

/-- `createMatrix` (source lines 203-262): finders, timing, dark module,
alignment patterns, format-info reservation.  Returns the matrix; the
side length is `version * 4 + 17`. -/
def createMatrix (version : Nat) : QMatrix :=
  let size := version * 4 + 17
  let m : QMatrix := List.replicate size (List.replicate size none)
  formatReserveStage size (alignmentStage version size
    (msetCell (timingStage size (finderStage size m)) (size - 8) 8 1))

/-! ### Data placement (source lines 264-284) -/

/-- The sequence of pair-base columns visited by the outer loop
`for (let col = size-1; col >= 1; col -= 2) { if (col === 6) col = 5; ... }`.
Fuel-structural; `size` units of fuel always suffice. -/
def colBases : Nat → Nat → List Nat
  | 0, _ => []
  | fuel + 1, c =>
    if c < 1 then []
    else (if c = 6 then 5 else c) :: colBases fuel ((if c = 6 then 5 else c) - 2)

/-- The row order for one column pair: bottom-to-top when `up`. -/
def rowOrder (size : Nat) (up : Bool) : List Nat :=
  if up then (List.range size).map (fun i => size - 1 - i) else List.range size

/-- The full boustrophedon traversal as a flat list of `(row, col)`
coordinates: for the `k`-th column pair the direction is upward iff `k`
is even, and within a row the cells `col` then `col - 1` are visited. -/
def traversal (size : Nat) : List (Nat × Nat) :=
  let bases := colBases size (size - 1)
  ((List.range bases.length).zip bases).flatMap (fun p =>
    (rowOrder size (p.1 % 2 = 0)).flatMap (fun row => [(row, p.2), (row, p.2 - 1)]))

/-- One visit of `placeData`'s inner loop: skip cells already fixed,
otherwise write the next bit (`0` when the stream is exhausted) and
advance `bitIdx`. -/
def placeStep (bits : List Nat) (st : QMatrix × Nat) (p : Nat × Nat) : QMatrix × Nat :=
  if mcell st.1 p.1 p.2 ≠ none then st
  else (msetCell st.1 p.1 p.2 (bits.getD st.2 0), st.2 + 1)

/-- `placeData` (source lines 264-284).  Also returns the final `bitIdx`,
which counts exactly the cells written. -/
def placeData (m : QMatrix) (size : Nat) (data : List Nat) : QMatrix × Nat :=
  let bits := (data.map byteBits).flatten
  (traversal size).foldl (placeStep bits) (m, 0)

/-! ### Masking and format info (source lines 286-338) -/

/-- Cell read on the final (`null`-free) matrix. -/
def get2 (m : List (List Nat)) (r c : Nat) : Nat :=
  (List.getD m r []).getD c 0

def set2 (m : List (List Nat)) (r c v : Nat) : List (List Nat) :=
  List.set m r ((List.getD m r []).set c v)

/-- The copy + mask XOR passes of `applyMask` (source lines 288-308):
`result[r][c] = matrix[r][c] ?? 0`, then for every cell that the freshly
rebuilt template `createMatrix((size - 17) / 4)` leaves unset and where
`(r + c) % 2 === 0`, `result[r][c] ^= 1`.  Each loop writes every cell
exactly once from independent inputs, so the two sweeps are expressed as
two array builds. -/
def maskedCopy (m : QMatrix) (size : Nat) : List (List Nat) :=
  let result := (List.range size).map (fun r =>
    (List.range size).map (fun c => (mcell m r c).getD 0))
  let template := createMatrix ((size - 17) / 4)
  (List.range size).map (fun r =>
    (List.range size).map (fun c =>
      if mcell template r c = none ∧ (r + c) % 2 = 0
      then get2 result r c ^^^ 1 else get2 result r c))

/-- `'101010000010010'` (format bits for EC level M, mask 0). -/
def FORMAT_BITS : List Nat := [1, 0, 1, 0, 1, 0, 0, 0, 0, 0, 1, 0, 0, 1, 0]

/-- The format-information writes of `applyMask` (source lines 310-335):
positions around the top-left finder, then the right and bottom strips.
The bottom strip loop runs `i = 0..7` writing rows `size-8 .. size-1`. -/
def writeFormat (res : List (List Nat)) (size : Nat) : List (List Nat) :=
  let hPositions : List (Nat × Nat) := [(8, 0), (8, 1), (8, 2), (8, 3), (8, 4), (8, 5), (8, 7), (8, 8)]
  let vPositions : List (Nat × Nat) := [(7, 8), (5, 8), (4, 8), (3, 8), (2, 8), (1, 8), (0, 8)]
  let res := (List.range 8).foldl (fun res i =>
    let p := hPositions.getD i (0, 0)
    set2 res p.1 p.2 (FORMAT_BITS.getD i 0)) res
  let res := (List.range 7).foldl (fun res i =>
    let p := vPositions.getD i (0, 0)
    set2 res p.1 p.2 (FORMAT_BITS.getD (14 - i) 0)) res
  let res := (List.range 7).foldl (fun res i =>
    set2 res 8 (size - 1 - i) (FORMAT_BITS.getD i 0)) res
  (List.range 8).foldl (fun res i =>
    set2 res (size - 8 + i) 8 (FORMAT_BITS.getD (14 - i) 0)) res

/-- `applyMask` (source lines 286-338): mask pass then format writes. -/
def applyMask (m : QMatrix) (size : Nat) : List (List Nat) :=
  writeFormat (maskedCopy m size) size

/-- `data.charCodeAt(i)` for every position (`Char.toNat`; equal to JS
for all code points below `0x10000`). -/
def strCodes (s : String) : List Nat :=
  s.toList.map Char.toNat

/-- `generateQrMatrix` (source lines 340-347); `none` models the
`RangeError` thrown inside `encodeDataByte` on capacity overflow. -/
def generateQrMatrix (data : String) : Option (List (List Nat)) :=
  let codes := strCodes data
  let p := pickVersion codes.length
  (encodeDataByte codes p.version p.blocks).map (fun de =>
    let inter := interleave de.1 de.2
    let size := p.version * 4 + 17
    let m := createMatrix p.version
    applyMask (placeData m size inter).1 size)

/-! ### SVG renderer and base64 (source lines 351-390) -/

/-- `qrToSvg` (source lines 351-372) with the default
`moduleSize = 4, quietZone = 4`. -/
def qrToSvg (matrix : List (List Nat)) : String :=
  let moduleSize := 4
  let quietZone := 4
  let size := matrix.length
  let fullSize := (size + quietZone * 2) * moduleSize
  let paths := String.join ((List.range size).map (fun r =>
    String.join ((List.range size).map (fun c =>
      if get2 matrix r c = 1 then
        let x := (c + quietZone) * moduleSize
        let y := (r + quietZone) * moduleSize
        "M" ++ toString x ++ "," ++ toString y ++ "h" ++ toString moduleSize
          ++ "v" ++ toString moduleSize ++ "h-" ++ toString moduleSize ++ "z"
      else ""))))
  String.join
    ["<svg xmlns=\"http://www.w3.org/2000/svg\" viewBox=\"0 0 " ++ toString fullSize
       ++ " " ++ toString fullSize ++ "\" width=\"" ++ toString fullSize
       ++ "\" height=\"" ++ toString fullSize ++ "\">",
     "<rect width=\"" ++ toString fullSize ++ "\" height=\"" ++ toString fullSize
       ++ "\" fill=\"white\"/>",
     "<path d=\"" ++ paths ++ "\" fill=\"black\"/>",
     "</svg>"]

def B64_CHARS : List Char :=
  "ABCDEFGHIJKLMNOPQRSTUVWXYZabcdefghijklmnopqrstuvwxyz0123456789+/".toList

def b64c (i : Nat) : String :=
  String.singleton (B64_CHARS.getD i 'A')

/-- Base64 of a byte list, three bytes at a time (fuel-structural). -/
def b64Aux : Nat → List Nat → String
  | 0, _ => ""
  | _, [] => ""
  | _ + 1, [a] =>
    b64c (a / 4) ++ b64c (a % 4 * 16) ++ "=="
  | _ + 1, [a, b] =>
    b64c (a / 4) ++ b64c (a % 4 * 16 + b / 16) ++ b64c (b % 16 * 4) ++ "="
  | fuel + 1, a :: b :: c :: rest =>
    b64c (a / 4) ++ b64c (a % 4 * 16 + b / 16) ++ b64c (b % 16 * 4 + c / 64)
      ++ b64c (c % 64) ++ b64Aux fuel rest

/-- `btoa` (and the `Buffer.from(svg).toString('base64')` SSR fallback —
identical on the ASCII strings `qrToSvg` produces). -/
def btoa (s : String) : String :=
  b64Aux s.length (strCodes s)

/-! ### URI builder (source lines 13-39) -/

/-- `UpiQrParams`.  Optional string fields use `""` for "absent": the JS
guards are truthiness tests (`if (params.payeeName)` …), which treat the
empty string and `undefined` alike.  `currency` stays an `Option`
because its guard is the nullish operator `?? 'INR'`, which keeps an
empty string.  `amount` is a rational standing for the JS number. -/
structure UpiQrParams where
  vpa : String
  payeeName : String := ""
  amount : Option ℚ := none
  currency : Option String := none
  note : String := ""
  mcc : String := ""
  txnRefId : String := ""
deriving DecidableEq

/-- The set kept verbatim by `encodeURIComponent`: ASCII alphanumerics
and `- _ . ! ~ * ' ( )` (codes 45 95 46 33 126 42 39 40 41). -/
def uriUnreserved (n : Nat) : Bool :=
  (65 ≤ n && n ≤ 90) || (97 ≤ n && n ≤ 122) || (48 ≤ n && n ≤ 57) ||
    (n == 45 || n == 95 || n == 46 || n == 33 || n == 126 || n == 42 ||
     n == 39 || n == 40 || n == 41)

def hexDigit (n : Nat) : Char :=
  "0123456789ABCDEF".toList.getD n '0'

def pctByte (b : Nat) : String :=
  String.mk ['%', hexDigit (b / 16), hexDigit (b % 16)]

/-- UTF-8 bytes of a code point (what `encodeURIComponent` percent-encodes;
Lean `Char` carries no lone surrogates, the only inputs on which the JS
builtin throws instead). -/
def utf8Bytes (n : Nat) : List Nat :=
  if n < 0x80 then [n]
  else if n < 0x800 then [0xc0 + n / 64, 0x80 + n % 64]
  else if n < 0x10000 then [0xe0 + n / 4096, 0x80 + n / 64 % 64, 0x80 + n % 64]
  else [0xf0 + n / 262144, 0x80 + n / 4096 % 64, 0x80 + n / 64 % 64, 0x80 + n % 64]

def encodeURIComponent (s : String) : String :=
  String.join (s.toList.map (fun c =>
    if uriUnreserved c.toNat then String.singleton c
    else String.join ((utf8Bytes c.toNat).map pctByte)))

/-- `amount.toFixed(2)`: nearest multiple of `1/100`, ties toward `+∞`
(the ECMAScript `toFixed` tie rule; the binary-float rounding of the JS
number itself is below the two digits kept, and the builder only emits
positive amounts). -/
def toFixed2 (q : ℚ) : String :=
  let n : Int := (q * 100 + 1 / 2).floor
  let a := n.natAbs
  (if n < 0 then "-" else "") ++ toString (a / 100) ++ "."
    ++ (if a % 100 < 10 then "0" else "") ++ toString (a % 100)

/-- The `parts` array of `buildUpiUri` (source lines 30-38). -/
def buildUpiUriParts (p : UpiQrParams) : List String :=
  ["upi://pay?pa=" ++ encodeURIComponent p.vpa]
  ++ (if p.payeeName ≠ "" then ["pn=" ++ encodeURIComponent p.payeeName] else [])
  ++ (match p.amount with
      | some a => if 0 < a then ["am=" ++ toFixed2 a] else []
      | none => [])
  ++ ["cu=" ++ p.currency.getD "INR"]
  ++ (if p.note ≠ "" then ["tn=" ++ encodeURIComponent p.note] else [])
  ++ (if p.mcc ≠ "" then ["mc=" ++ p.mcc] else [])
  ++ (if p.txnRefId ≠ "" then ["tr=" ++ encodeURIComponent p.txnRefId] else [])

/-- `buildUpiUri` (source lines 30-39): `parts.join('&')`. -/
def buildUpiUri (p : UpiQrParams) : String :=
  String.intercalate "&" (buildUpiUriParts p)

/-- `generateUpiQrCode` (source lines 379-390); `none` models the
`RangeError` escaping from `encodeDataByte` on capacity overflow. -/
def generateUpiQrCode (p : UpiQrParams) : Option String :=
  let uri := buildUpiUri p
  (generateQrMatrix uri).map (fun matrix =>
    "data:image/svg+xml;base64," ++ btoa (qrToSvg matrix))

/-! ### `validateUpiId` (source lines 398-417) -/

/-- The whitespace set of `String.prototype.trim`. -/
def jsWhitespace (c : Char) : Bool :=
  c.toNat ∈ [9, 10, 11, 12, 13, 32, 0xa0, 0x1680, 0x2000, 0x2001, 0x2002,
    0x2003, 0x2004, 0x2005, 0x2006, 0x2007, 0x2008, 0x2009, 0x200a,
    0x2028, 0x2029, 0x202f, 0x205f, 0x3000, 0xfeff]

def jsTrim (s : String) : String :=
  String.mk (((s.toList.dropWhile jsWhitespace).reverse.dropWhile jsWhitespace).reverse)

structure ValidationResult where
  valid : Bool
  message : Option String := none
deriving DecidableEq

/-- `(trimmed.match(/@/g) || []).length`. -/
def atCount (s : String) : Nat :=
  s.toList.count '@'

def alnumCh (c : Char) : Bool :=
  (65 ≤ c.toNat && c.toNat ≤ 90) || (97 ≤ c.toNat && c.toNat ≤ 122) ||
    (48 ≤ c.toNat && c.toNat ≤ 57)

def alphaCh (c : Char) : Bool :=
  (65 ≤ c.toNat && c.toNat ≤ 90) || (97 ≤ c.toNat && c.toNat ≤ 122)

/-- The class `[a-zA-Z0-9._-]` (codes 46 95 45 are `. _ -`). -/
def localCh (c : Char) : Bool :=
  alnumCh c || c.toNat == 46 || c.toNat == 95 || c.toNat == 45

/-- `[a-zA-Z0-9][a-zA-Z0-9._-]{0,49}`. -/
def localPartOk : List Char → Bool
  | [] => false
  | h :: t => alnumCh h && t.length ≤ 49 && t.all localCh

/-- `[a-zA-Z][a-zA-Z0-9]{0,49}`. -/
def handleOk : List Char → Bool
  | [] => false
  | h :: t => alphaCh h && t.length ≤ 49 && t.all alnumCh

/-- `/^[a-zA-Z0-9][a-zA-Z0-9._-]{0,49}@[a-zA-Z][a-zA-Z0-9]{0,49}$/.test(s)`:
both character classes exclude `@`, so the anchored pattern matches
exactly when the text before the first `@` matches the local-part piece
and everything after it matches the handle piece. -/
def upiRegexTest (s : String) : Bool :=
  match s.toList.dropWhile (fun c => c ≠ '@') with
  | '@' :: h => localPartOk (s.toList.takeWhile (fun c => c ≠ '@')) && handleOk h
  | _ => false

/-- `validateUpiId` (source lines 398-417). -/
def validateUpiId (upiId : String) : ValidationResult :=
  if upiId = "" ∨ jsTrim upiId = "" then
    ⟨false, some "UPI ID is required"⟩
  else
    let trimmed := jsTrim upiId
    if atCount trimmed ≠ 1 then
      ⟨false, some "UPI ID must contain exactly one @ symbol (e.g. name@upi)"⟩
    else if ¬ upiRegexTest trimmed then
      ⟨false, some "Invalid UPI ID format. Expected: username@handle (e.g. merchant@upi, john.doe@oksbi)"⟩
    else ⟨true, none⟩

/-! ### Auxiliary notions used by the statements -/

/-- Number of unset (`null`) cells of a template matrix. -/
def unsetCount (m : QMatrix) : Nat :=
  (List.map (fun row => row.countP (fun x => x = none)) m).sum

/-- A `size × size` matrix whose every cell is set to a bit
(`some 0` or `some 1`): the shape `placeData` must produce. -/
def matrixFull (size : Nat) (m : QMatrix) : Bool :=
  (List.length m == size) && m.all (fun row =>
    (row.length == size) && row.all (fun o => o.isSome && o.getD 0 ≤ 1))

/-- Every set cell of the matrix holds a bit. -/
def matrixVals01 (m : QMatrix) : Prop :=
  ∀ r c x, mcell m r c = some x → x ≤ 1

/-- Bool version of `matrixVals01` for concrete checks. -/
def matrixVals01B (m : QMatrix) : Bool :=
  m.all (fun row => row.all (fun o => o.getD 0 ≤ 1))

/-- A matrix of `size` rows, each of length `size`. -/
def matShape (m : QMatrix) (size : Nat) : Prop :=
  m.length = size ∧ ∀ row ∈ m, row.length = size

/-- Concrete overflow input: the built URI is 249 characters long,
beyond the 212-byte capacity of version 10. -/
def overflowParams : UpiQrParams :=
  { vpa := "m@u", txnRefId := String.mk (List.replicate 220 'a') }

/-- Concrete in-capacity input for witnesses. -/
def smallParams : UpiQrParams :=
  { vpa := "merchant@upi", note := "Test" }

/-- Concrete input whose merchant category code contains a space. -/
def mccParams : UpiQrParams :=
  { vpa := "m@u", mcc := "12 3" }

/-! ## Lemmas: matrix cells and writes -/

theorem mcell_as_getElem (m : QMatrix) (r c : Nat) :
    mcell m r c = (((m[r]?).getD [])[c]?).getD none := by
  simp [mcell]

theorem msetCell_length (m : QMatrix) (r c v : Nat) :
    (msetCell m r c v).length = m.length := by
  simp [msetCell]

theorem mcell_msetCell_ne (m : QMatrix) {r c r' c' : Nat} (v : Nat)
    (h : ¬(r' = r ∧ c' = c)) :
    mcell (msetCell m r c v) r' c' = mcell m r' c' := by
  rcases eq_or_ne r' r with hr | hr
  · subst hr
    have hc : c' ≠ c := fun hcc => h ⟨rfl, hcc⟩
    by_cases hlen : r' < m.length
    · simp only [mcell_as_getElem, msetCell, List.getElem?_set_self hlen,
        Option.getD_some, List.getD_eq_getElem?_getD]
      rw [List.getElem?_set_ne (Ne.symm hc)]
    · rw [msetCell, List.set_eq_of_length_le (Nat.le_of_not_lt hlen)]
  · simp only [mcell_as_getElem, msetCell]
    rw [List.getElem?_set_ne (Ne.symm hr)]

theorem mcell_msetCell_self (m : QMatrix) {r c : Nat} (v : Nat)
    (h1 : r < m.length) (h2 : c < ((m[r]?).getD []).length) :
    mcell (msetCell m r c v) r c = some v := by
  simp only [mcell_as_getElem, msetCell, List.getElem?_set_self h1, Option.getD_some,
    List.getD_eq_getElem?_getD]
  rw [List.getElem?_set_self h2]
  rfl

theorem mcell_msetCell_cases (m : QMatrix) {r c r' c' v x : Nat}
    (h : mcell (msetCell m r c v) r' c' = some x) :
    x = v ∨ mcell m r' c' = some x := by
  by_cases hb : r' = r ∧ c' = c
  · rw [hb.1, hb.2] at h ⊢
    by_cases h1 : r < m.length
    · by_cases h2 : c < ((m[r]?).getD []).length
      · rw [mcell_msetCell_self m v h1 h2] at h
        exact Or.inl (Option.some_inj.mp h).symm
      · right
        rw [msetCell, List.getD_eq_getElem?_getD, List.set_eq_of_length_le
          (Nat.le_of_not_lt h2)] at h
        rw [mcell_as_getElem] at h
        rw [List.getElem?_set_self h1, Option.getD_some] at h
        rw [mcell_as_getElem]
        exact h
    · right
      rwa [msetCell, List.set_eq_of_length_le (Nat.le_of_not_lt h1)] at h
  · right
    rwa [mcell_msetCell_ne m v hb] at h

theorem mcell_isSome_bounds {m : QMatrix} {r c : Nat} {x : Nat}
    (h : mcell m r c = some x) : r < m.length := by
  by_contra hr
  rw [mcell_as_getElem, List.getElem?_eq_none (Nat.le_of_not_lt hr)] at h
  simp at h

/-- Generic preservation through a left fold. -/
theorem foldl_preserves {α β : Type} (P : β → Prop) (f : β → α → β) (l : List α)
    (hstep : ∀ s a, a ∈ l → P s → P (f s a)) (s₀ : β) (h₀ : P s₀) :
    P (l.foldl f s₀) := by
  induction l generalizing s₀ with
  | nil => exact h₀
  | cons a t ih =>
    exact ih (fun s b hb hs => hstep s b (List.mem_cons_of_mem a hb) hs)
      (f s₀ a) (hstep s₀ a (List.mem_cons_self a t) h₀)

theorem getD_mem_of_lt {m : QMatrix} {r : Nat} (hr : r < m.length) :
    m.getD r [] ∈ m := by
  rw [List.getD_eq_getElem?_getD, List.getElem?_eq_getElem hr]
  exact List.getElem_mem hr

theorem matShape_msetCell {m : QMatrix} {size : Nat} (h : matShape m size)
    (r c v : Nat) : matShape (msetCell m r c v) size := by
  obtain ⟨hlen, hrows⟩ := h
  by_cases hr : r < m.length
  · refine ⟨by simpa [msetCell] using hlen, ?_⟩
    intro row hrow
    rcases List.mem_or_eq_of_mem_set hrow with hmem | rfl
    · exact hrows row hmem
    · rw [List.length_set]
      exact hrows _ (getD_mem_of_lt hr)
  · rw [msetCell, List.set_eq_of_length_le (Nat.le_of_not_lt hr)]
    exact ⟨hlen, hrows⟩

theorem matShape_setIfNone {m : QMatrix} {size : Nat} (h : matShape m size) (r c v : Nat) :
    matShape (if mcell m r c = none then msetCell m r c v else m) size := by
  split
  · exact matShape_msetCell h r c v
  · exact h

theorem matShape_drawFinder {m : QMatrix} {size : Nat} (h : matShape m size) (row col : Nat) :
    matShape (drawFinder size m row col) size := by
  unfold drawFinder
  refine foldl_preserves (fun t => matShape t size) _ _ (fun s a _ hs => ?_) m h
  refine foldl_preserves (fun t => matShape t size) _ _ (fun s' a' _ hs' => ?_) s hs
  dsimp only
  split
  · exact hs'
  · exact matShape_msetCell hs' _ _ _

theorem matShape_finderStage {m : QMatrix} {size : Nat} (h : matShape m size) :
    matShape (finderStage size m) size :=
  matShape_drawFinder (matShape_drawFinder (matShape_drawFinder h 0 0) 0 (size - 7)) (size - 7) 0

theorem matShape_timingStage {m : QMatrix} {size : Nat} (h : matShape m size) :
    matShape (timingStage size m) size := by
  unfold timingStage
  refine foldl_preserves (fun t => matShape t size) _ _ (fun s i _ hs => ?_) m h
  dsimp only
  split
  · exact matShape_setIfNone (matShape_setIfNone hs 6 i _) i 6 _
  · exact hs

theorem matShape_alignmentStage {m : QMatrix} {size : Nat} (h : matShape m size)
    (version : Nat) : matShape (alignmentStage version size m) size := by
  unfold alignmentStage
  split
  · refine foldl_preserves (fun t => matShape t size) _ _ (fun s row _ hs => ?_) m h
    refine foldl_preserves (fun t => matShape t size) _ _ (fun s' col _ hs' => ?_) s hs
    dsimp only
    split
    · exact hs'
    · refine foldl_preserves (fun t => matShape t size) _ _ (fun t1 ri _ ht => ?_) s' hs'
      refine foldl_preserves (fun t => matShape t size) _ _ (fun t' ci _ ht' => ?_) t1 ht
      exact matShape_msetCell ht' _ _ _
  · exact h

theorem matShape_formatReserveStage {m : QMatrix} {size : Nat} (h : matShape m size) :
    matShape (formatReserveStage size m) size := by
  unfold formatReserveStage
  refine matShape_setIfNone ?_ 8 8 0
  refine foldl_preserves (fun t => matShape t size) _ _ (fun s i _ hs => ?_) m h
  dsimp only
  exact matShape_setIfNone (matShape_setIfNone (matShape_setIfNone
    (matShape_setIfNone hs 8 i 0) i 8 0) 8 _ 0) _ 8 0

theorem matShape_createMatrix (version : Nat) :
    matShape (createMatrix version) (version * 4 + 17) := by
  unfold createMatrix
  refine matShape_formatReserveStage (matShape_alignmentStage
    (matShape_msetCell (matShape_timingStage (matShape_finderStage ?_)) _ _ _) version)
  constructor
  · simp
  · intro row hrow
    rw [List.eq_of_mem_replicate hrow]
    simp

/-! ## Lemmas: all fixed cells hold bits -/

theorem matrixVals01_msetCell {m : QMatrix} (h : matrixVals01 m) {v : Nat} (hv : v ≤ 1)
    (r c : Nat) : matrixVals01 (msetCell m r c v) := by
  intro r' c' x hx
  rcases mcell_msetCell_cases m hx with rfl | hold
  · exact hv
  · exact h r' c' x hold

theorem matrixVals01_setIfNone {m : QMatrix} (h : matrixVals01 m) {v : Nat} (hv : v ≤ 1)
    (r c : Nat) : matrixVals01 (if mcell m r c = none then msetCell m r c v else m) := by
  split
  · exact matrixVals01_msetCell h hv r c
  · exact h

theorem matrixVals01_drawFinder {m : QMatrix} (h : matrixVals01 m) (size row col : Nat) :
    matrixVals01 (drawFinder size m row col) := by
  unfold drawFinder
  refine foldl_preserves matrixVals01 _ _ (fun s a _ hs => ?_) m h
  refine foldl_preserves matrixVals01 _ _ (fun s' a' _ hs' => ?_) s hs
  dsimp only
  split
  · exact hs'
  · refine matrixVals01_msetCell hs' ?_ _ _
    split
    · omega
    · split <;> omega

theorem matrixVals01_finderStage {m : QMatrix} (h : matrixVals01 m) (size : Nat) :
    matrixVals01 (finderStage size m) :=
  matrixVals01_drawFinder (matrixVals01_drawFinder (matrixVals01_drawFinder h size 0 0)
    size 0 (size - 7)) size (size - 7) 0

theorem matrixVals01_timingStage {m : QMatrix} (h : matrixVals01 m) (size : Nat) :
    matrixVals01 (timingStage size m) := by
  unfold timingStage
  refine foldl_preserves matrixVals01 _ _ (fun s i _ hs => ?_) m h
  dsimp only
  split
  · refine matrixVals01_setIfNone (matrixVals01_setIfNone hs ?_ 6 i) ?_ i 6 <;>
      (split <;> omega)
  · exact hs

theorem matrixVals01_alignmentStage {m : QMatrix} (h : matrixVals01 m) (version size : Nat) :
    matrixVals01 (alignmentStage version size m) := by
  unfold alignmentStage
  split
  · refine foldl_preserves matrixVals01 _ _ (fun s row _ hs => ?_) m h
    refine foldl_preserves matrixVals01 _ _ (fun s' col _ hs' => ?_) s hs
    dsimp only
    split
    · exact hs'
    · refine foldl_preserves matrixVals01 _ _ (fun t1 ri _ ht => ?_) s' hs'
      refine foldl_preserves matrixVals01 _ _ (fun t' ci _ ht' => ?_) t1 ht
      refine matrixVals01_msetCell ht' ?_ _ _
      split <;> omega
  · exact h

theorem matrixVals01_formatReserveStage {m : QMatrix} (h : matrixVals01 m) (size : Nat) :
    matrixVals01 (formatReserveStage size m) := by
  unfold formatReserveStage
  refine matrixVals01_setIfNone ?_ (by omega) 8 8
  refine foldl_preserves matrixVals01 _ _ (fun s i _ hs => ?_) m h
  dsimp only
  exact matrixVals01_setIfNone (matrixVals01_setIfNone (matrixVals01_setIfNone
    (matrixVals01_setIfNone hs (by omega) 8 i) (by omega) i 8) (by omega) 8 _)
    (by omega) _ 8

theorem mcell_replicate (s r c : Nat) :
    mcell (List.replicate s (List.replicate s (none : Option Nat))) r c = none := by
  rw [mcell_as_getElem, List.getElem?_replicate]
  split
  · rw [Option.getD_some, List.getElem?_replicate]
    split <;> rfl
  · rfl

theorem matrixVals01_createMatrix (version : Nat) : matrixVals01 (createMatrix version) := by
  unfold createMatrix
  refine matrixVals01_formatReserveStage (matrixVals01_alignmentStage
    (matrixVals01_msetCell (matrixVals01_timingStage (matrixVals01_finderStage ?_ _) _)
      (by omega) _ _) version _) _
  intro r c x hx
  rw [mcell_replicate] at hx
  exact absurd hx (by simp)

/-! ## Lemmas: the boustrophedon traversal -/

theorem colBases_le : ∀ (fuel c b : Nat), b ∈ colBases fuel c → b ≤ c := by
  intro fuel
  induction fuel with
  | zero => intro c b h; simp [colBases] at h
  | succ f ih =>
    intro c b h
    by_cases h1 : c < 1
    · simp [colBases, h1] at h
    · by_cases h6 : c = 6
      · subst h6
        simp only [colBases, if_neg h1, reduceIte] at h
        rcases List.mem_cons.mp h with rfl | hmem
        · omega
        · have := ih _ _ hmem; omega
      · simp only [colBases, if_neg h1, if_neg h6] at h
        rcases List.mem_cons.mp h with rfl | hmem
        · omega
        · have := ih _ _ hmem; omega

theorem colBases_cover_odd : ∀ (c : Nat), c % 2 = 1 → ∀ (fuel x : Nat), c ≤ fuel → x ≤ c →
    ∃ b, b ∈ colBases fuel c ∧ (x = b ∨ x = b - 1) := by
  intro c
  induction c using Nat.strong_induction_on with
  | _ c ih =>
    intro hodd fuel x hfuel hx
    obtain ⟨f, rfl⟩ : ∃ f, fuel = f + 1 := ⟨fuel - 1, by omega⟩
    have h1 : ¬ c < 1 := by omega
    have h6 : c ≠ 6 := by omega
    simp only [colBases, if_neg h1, if_neg h6]
    by_cases hbig : c - 1 ≤ x
    · exact ⟨c, List.mem_cons_self _ _, by omega⟩
    · obtain ⟨b, hb, hxb⟩ := ih (c - 2) (by omega) (by omega) f x (by omega) (by omega)
      exact ⟨b, List.mem_cons_of_mem _ hb, hxb⟩

theorem colBases_cover_even : ∀ (c : Nat), c % 2 = 0 → 6 ≤ c → ∀ (fuel x : Nat),
    c ≤ fuel → x ≤ c → x ≠ 6 →
    ∃ b, b ∈ colBases fuel c ∧ (x = b ∨ x = b - 1) := by
  intro c
  induction c using Nat.strong_induction_on with
  | _ c ih =>
    intro heven h6c fuel x hfuel hx hx6
    obtain ⟨f, rfl⟩ : ∃ f, fuel = f + 1 := ⟨fuel - 1, by omega⟩
    have h1 : ¬ c < 1 := by omega
    by_cases hc6 : c = 6
    · subst hc6
      simp only [colBases, if_neg h1, reduceIte]
      by_cases h4 : 4 ≤ x
      · exact ⟨5, List.mem_cons_self _ _, by omega⟩
      · obtain ⟨b, hb, hxb⟩ := colBases_cover_odd 3 (by omega) f x (by omega) (by omega)
        exact ⟨b, List.mem_cons_of_mem _ hb, hxb⟩
    · have hc8 : 8 ≤ c := by omega
      simp only [colBases, if_neg h1, if_neg hc6]
      by_cases hbig : c - 1 ≤ x
      · exact ⟨c, List.mem_cons_self _ _, by omega⟩
      · obtain ⟨b, hb, hxb⟩ :=
          ih (c - 2) (by omega) (by omega) (by omega) f x (by omega) (by omega) hx6
        exact ⟨b, List.mem_cons_of_mem _ hb, hxb⟩

theorem rowOrder_mem (size r : Nat) (hr : r < size) (up : Bool) : r ∈ rowOrder size up := by
  unfold rowOrder
  cases up with
  | false => simpa using List.mem_range.mpr hr
  | true =>
    simp only [if_pos]
    exact List.mem_map.mpr ⟨size - 1 - r, List.mem_range.mpr (by omega), by omega⟩

theorem traversal_mem {size r c : Nat} (hsize : size % 2 = 1) (h21 : 21 ≤ size)
    (hr : r < size) (hc : c < size) (hc6 : c ≠ 6) : (r, c) ∈ traversal size := by
  obtain ⟨b, hbmem, hxb⟩ :=
    colBases_cover_even (size - 1) (by omega) (by omega) size c (by omega) (by omega) hc6
  unfold traversal
  rw [List.mem_flatMap]
  obtain ⟨i, hi, hib⟩ := List.mem_iff_getElem.mp hbmem
  refine ⟨(i, b), ?_, ?_⟩
  · refine List.mem_iff_getElem?.mpr ⟨i, ?_⟩
    rw [List.getElem?_zip_eq_some]
    exact ⟨List.getElem?_range (by simpa using hi), by rw [List.getElem?_eq_getElem hi, hib]⟩
  · rw [List.mem_flatMap]
    refine ⟨r, rowOrder_mem size r hr _, ?_⟩
    rcases hxb with rfl | rfl
    · simp
    · simp

theorem rowOrder_lt {size : Nat} (hpos : 0 < size) {r : Nat} {up : Bool}
    (h : r ∈ rowOrder size up) : r < size := by
  unfold rowOrder at h
  split at h
  · obtain ⟨i, hi, rfl⟩ := List.mem_map.mp h
    omega
  · exact List.mem_range.mp h

theorem traversal_bounds {size : Nat} (hpos : 0 < size) :
    ∀ p ∈ traversal size, p.1 < size ∧ p.2 < size := by
  intro p hp
  unfold traversal at hp
  rw [List.mem_flatMap] at hp
  obtain ⟨q, hq, hpq⟩ := hp
  rw [List.mem_flatMap] at hpq
  obtain ⟨row, hrow, hcell⟩ := hpq
  have hrowlt : row < size := rowOrder_lt hpos hrow
  have hbase : q.2 < size := by
    obtain ⟨qa, qb⟩ := q
    have hmem := (List.of_mem_zip hq).2
    have := colBases_le _ _ _ hmem
    omega
  rcases List.mem_cons.mp hcell with rfl | hcell'
  · exact ⟨hrowlt, hbase⟩
  · rcases List.mem_cons.mp hcell' with rfl | habs
    · exact ⟨hrowlt, by omega⟩
    · exact absurd habs (List.not_mem_nil _)

/-! ## Lemmas: data placement -/

theorem matShape_placeStep {size : Nat} (bits : List Nat) {st : QMatrix × Nat}
    (h : matShape st.1 size) (p : Nat × Nat) : matShape (placeStep bits st p).1 size := by
  rw [placeStep]
  split
  · exact h
  · exact matShape_msetCell h _ _ _

theorem placeFold_keeps_some (bits : List Nat) (coords : List (Nat × Nat))
    (st : QMatrix × Nat) {r c x : Nat} (h : mcell st.1 r c = some x) :
    mcell (coords.foldl (placeStep bits) st).1 r c = some x := by
  refine foldl_preserves (fun t : QMatrix × Nat => mcell t.1 r c = some x) _ _
    (fun s p _ hs => ?_) st h
  rw [placeStep]
  split
  · exact hs
  · rename_i hg
    rw [Decidable.not_not] at hg
    rw [mcell_msetCell_ne]
    · exact hs
    · rintro ⟨rfl, rfl⟩
      rw [hs] at hg
      exact Option.some_ne_none x hg

theorem matrixVals01_placeFold (bits : List Nat) (hbits : ∀ d ∈ bits, d ≤ 1)
    (coords : List (Nat × Nat)) (st : QMatrix × Nat) (h : matrixVals01 st.1) :
    matrixVals01 (coords.foldl (placeStep bits) st).1 := by
  refine foldl_preserves (fun t : QMatrix × Nat => matrixVals01 t.1) _ _
    (fun s p _ hs => ?_) st h
  rw [placeStep]
  split
  · exact hs
  · refine matrixVals01_msetCell hs ?_ _ _
    rcases h' : bits[s.2]? with _ | d
    · simp [List.getD_eq_getElem?_getD, h']
    · rw [List.getD_eq_getElem?_getD, h', Option.getD_some]
      exact hbits d (List.getElem?_mem h')

theorem placeFold_visited {size : Nat} (bits : List Nat) :
    ∀ (coords : List (Nat × Nat)) (st : QMatrix × Nat) (r c : Nat),
      (r, c) ∈ coords → matShape st.1 size → r < size → c < size →
      ∃ y, mcell (coords.foldl (placeStep bits) st).1 r c = some y := by
  intro coords
  induction coords with
  | nil => intro st r c h _ _ _; exact absurd h (List.not_mem_nil _)
  | cons p ps ih =>
    intro st r c hmem hshape hr hc
    rw [List.foldl_cons]
    rcases List.mem_cons.mp hmem with heq | hmem'
    · obtain ⟨pr, pc⟩ := p
      injection heq with h1 h2
      subst h1
      subst h2
      have hcell : ∃ y, mcell (placeStep bits st (r, c)).1 r c = some y := by
        rw [placeStep]
        split
        · rename_i hg
          exact Option.ne_none_iff_exists'.mp hg
        · refine ⟨bits.getD st.2 0, mcell_msetCell_self st.1 _ ?_ ?_⟩
          · rw [hshape.1]; exact hr
          · have hrlt : r < st.1.length := by rw [hshape.1]; exact hr
            rw [List.getElem?_eq_getElem hrlt, Option.getD_some,
              hshape.2 _ (List.getElem_mem hrlt)]
            exact hc
      obtain ⟨y, hy⟩ := hcell
      exact ⟨y, placeFold_keeps_some bits ps _ hy⟩
    · exact ih (placeStep bits st p) r c hmem' (matShape_placeStep bits hshape p) hr hc

theorem countP_none_set (v : Nat) :
    ∀ (l : List (Option Nat)) (c : Nat), c < l.length → l.getD c none = none →
      (l.set c (some v)).countP (fun x => x = none) + 1 = l.countP (fun x => x = none) := by
  intro l
  induction l with
  | nil => intro c h; simp at h
  | cons a t ih =>
    intro c hlen hnone
    cases c with
    | zero =>
      rw [List.getD_cons_zero] at hnone
      subst hnone
      simp [List.countP_cons]
    | succ c' =>
      rw [List.getD_cons_succ] at hnone
      have := ih c' (by simpa using hlen) hnone
      simp only [List.set_cons_succ, List.countP_cons]
      omega

theorem sum_set_add (a : Nat) :
    ∀ (l : List Nat) (i : Nat), i < l.length → (l.set i a).sum + l.getD i 0 = l.sum + a := by
  intro l
  induction l with
  | nil => intro i h; simp at h
  | cons x t ih =>
    intro i hlen
    cases i with
    | zero => simp [List.sum_cons]; omega
    | succ i' =>
      have := ih i' (by simpa using hlen)
      simp only [List.set_cons_succ, List.sum_cons, List.getD_cons_succ]
      omega

theorem unsetCount_msetCell {m : QMatrix} {r c : Nat} (v : Nat) (hr : r < m.length)
    (hc : c < (m.getD r []).length) (hnone : mcell m r c = none) :
    unsetCount (msetCell m r c v) + 1 = unsetCount m := by
  unfold unsetCount msetCell
  rw [List.map_set]
  have hrmap : r < (List.map (fun row => row.countP (fun x => x = none)) m).length := by
    simpa using hr
  have hset := sum_set_add ((((m.getD r []).set c (some v))).countP (fun x => x = none))
    (List.map (fun row => row.countP (fun x => x = none)) m) r hrmap
  have hgetD : (List.map (fun row => row.countP (fun x => x = none)) m).getD r 0
      = (m.getD r []).countP (fun x => x = none) := by
    rw [List.getD_eq_getElem?_getD, List.getElem?_map, List.getD_eq_getElem?_getD,
      List.getElem?_eq_getElem hr]
    rfl
  have hcell : (m.getD r []).getD c none = none := by
    rw [mcell_as_getElem] at hnone
    rw [List.getD_eq_getElem?_getD, List.getD_eq_getElem?_getD]
    exact hnone
  have hcount := countP_none_set v (m.getD r []) c hc hcell
  omega

theorem placeFold_count (size : Nat) (bits : List Nat) :
    ∀ (coords : List (Nat × Nat)) (st : QMatrix × Nat),
      matShape st.1 size → (∀ p ∈ coords, p.1 < size ∧ p.2 < size) →
      (coords.foldl (placeStep bits) st).2 + unsetCount (coords.foldl (placeStep bits) st).1
        = st.2 + unsetCount st.1 := by
  intro coords
  induction coords with
  | nil => intro st _ _; rfl
  | cons p ps ih =>
    intro st hshape hbnd
    rw [List.foldl_cons]
    have hrec := ih (placeStep bits st p) (matShape_placeStep bits hshape p)
      (fun q hq => hbnd q (List.mem_cons_of_mem p hq))
    rw [hrec]
    rw [placeStep]
    split
    · rfl
    · rename_i hg
      rw [Decidable.not_not] at hg
      obtain ⟨hp1, hp2⟩ := hbnd p (List.mem_cons_self p ps)
      have hr : p.1 < st.1.length := by rw [hshape.1]; exact hp1
      have hc : p.2 < (st.1.getD p.1 []).length := by
        rw [List.getD_eq_getElem?_getD, List.getElem?_eq_getElem hr, Option.getD_some,
          hshape.2 _ (List.getElem_mem hr)]
        exact hp2
      have := unsetCount_msetCell (bits.getD st.2 0) hr hc hg
      simp only []
      omega

theorem unsetCount_eq_zero (size : Nat) (m : QMatrix) (hshape : matShape m size)
    (hall : ∀ r c, r < size → c < size → (mcell m r c).isSome) : unsetCount m = 0 := by
  unfold unsetCount
  rw [List.sum_eq_zero]
  intro x hx
  rw [List.mem_map] at hx
  obtain ⟨row, hrow, rfl⟩ := hx
  rw [List.countP_eq_zero]
  intro a ha
  obtain ⟨rIdx, hrIdx, hrEq⟩ := List.mem_iff_getElem.mp hrow
  obtain ⟨cIdx, hcIdx, hcEq⟩ := List.mem_iff_getElem.mp ha
  have hr1 : rIdx < size := by rw [← hshape.1]; exact hrIdx
  have hc1 : cIdx < size := by rw [← hshape.2 row hrow]; exact hcIdx
  have hsome := hall rIdx cIdx hr1 hc1
  rw [mcell_as_getElem, List.getElem?_eq_getElem hrIdx, Option.getD_some, hrEq,
    List.getElem?_eq_getElem hcIdx, Option.getD_some, hcEq] at hsome
  simp only [decide_eq_true_eq]
  intro habs
  rw [habs] at hsome
  simp at hsome

theorem matShape_placeFold {size : Nat} (bits : List Nat) (coords : List (Nat × Nat))
    (st : QMatrix × Nat) (h : matShape st.1 size) :
    matShape (coords.foldl (placeStep bits) st).1 size :=
  foldl_preserves (fun t : QMatrix × Nat => matShape t.1 size) _ _
    (fun s p _ hs => matShape_placeStep bits hs p) st h

theorem natToBitsAux_le_one : ∀ (fuel n d : Nat), d ∈ natToBitsAux fuel n → d ≤ 1 := by
  intro fuel
  induction fuel with
  | zero => intro n d h; simp [natToBitsAux] at h
  | succ f ih =>
    intro n d h
    rw [natToBitsAux] at h
    split at h
    · simp at h
    · rcases List.mem_append.mp h with hmem | hmem
      · exact ih _ _ hmem
      · rw [List.mem_singleton] at hmem
        omega

theorem byteBits_le_one (cc d : Nat) (h : d ∈ byteBits cc) : d ≤ 1 := by
  unfold byteBits padStartZeros at h
  rcases List.mem_append.mp h with hmem | hmem
  · rw [List.eq_of_mem_replicate hmem]
    omega
  · unfold natToBits at hmem
    split at hmem
    · rw [List.mem_singleton] at hmem; omega
    · exact natToBitsAux_le_one _ _ _ hmem

theorem byteStream_le_one (data : List Nat) : ∀ d ∈ (data.map byteBits).flatten, d ≤ 1 := by
  intro d hd
  rw [List.mem_flatten] at hd
  obtain ⟨l, hl, hdl⟩ := hd
  rw [List.mem_map] at hl
  obtain ⟨cc, _, rfl⟩ := hl
  exact byteBits_le_one cc d hdl

set_option maxRecDepth 4000 in
theorem col6_fixed {v : Nat} (hv1 : 1 ≤ v) (hv2 : v ≤ 10) (r : Nat) (hr : r < v * 4 + 17) :
    (mcell (createMatrix v) r 6).isSome := by
  have hb : ((List.range (v * 4 + 17)).all
      (fun r => (mcell (createMatrix v) r 6).isSome)) = true := by
    interval_cases v <;> decide
  simpa using List.all_eq_true.mp hb r (List.mem_range.mpr hr)

set_option maxRecDepth 4000 in
theorem placeData_eq (m : QMatrix) (size : Nat) (data : List Nat) :
    placeData m size data
      = (traversal size).foldl (placeStep ((data.map byteBits).flatten)) (m, 0) := rfl

set_option maxRecDepth 4000

section

attribute [local irreducible] createMatrix traversal

/-- **C4**: for every tabulated version (1 through 10) and every
interleaved codeword stream, `placeData` fills the template completely:
every cell of the result is a bit (`some 0` or `some 1`), every cell that
`createMatrix` had fixed keeps its value, and the final `bitIdx` — which
counts exactly the writes, each of which targets a previously-unset cell
and makes it set — equals the number of unset cells of the template, so
each unset cell is written exactly once and no cell is left unset. -/
theorem c4_place_data_complete (v : Nat) (hv1 : 1 ≤ v) (hv2 : v ≤ 10) (data : List Nat) :
    (∀ r c, r < v * 4 + 17 → c < v * 4 + 17 →
        mcell (placeData (createMatrix v) (v * 4 + 17) data).1 r c = some 0 ∨
        mcell (placeData (createMatrix v) (v * 4 + 17) data).1 r c = some 1) ∧
    (∀ r c x, mcell (createMatrix v) r c = some x →
        mcell (placeData (createMatrix v) (v * 4 + 17) data).1 r c = some x) ∧
    (placeData (createMatrix v) (v * 4 + 17) data).2 = unsetCount (createMatrix v) := by
  have hshape := matShape_createMatrix v
  have hpres : ∀ r c x, mcell (createMatrix v) r c = some x →
      mcell (placeData (createMatrix v) (v * 4 + 17) data).1 r c = some x := by
    intro r c x h
    rw [placeData_eq]
    exact placeFold_keeps_some _ _ (createMatrix v, 0) h
  have hsome : ∀ r c, r < v * 4 + 17 → c < v * 4 + 17 →
      ∃ y, mcell (placeData (createMatrix v) (v * 4 + 17) data).1 r c = some y := by
    intro r c hr hc
    by_cases hc6 : c = 6
    · subst hc6
      obtain ⟨y, hy⟩ := Option.isSome_iff_exists.mp (col6_fixed hv1 hv2 r hr)
      exact ⟨y, hpres r 6 y hy⟩
    · rw [placeData_eq]
      exact placeFold_visited _ (traversal (v * 4 + 17)) (createMatrix v, 0) r c
        (traversal_mem (by omega) (by omega) hr hc hc6) hshape hr hc
  have hvals : matrixVals01 (placeData (createMatrix v) (v * 4 + 17) data).1 := by
    rw [placeData_eq]
    exact matrixVals01_placeFold _ (byteStream_le_one data) _ (createMatrix v, 0)
      (matrixVals01_createMatrix v)
  refine ⟨?_, hpres, ?_⟩
  · intro r c hr hc
    obtain ⟨y, hy⟩ := hsome r c hr hc
    have hle := hvals r c y hy
    interval_cases y
    · exact Or.inl hy
    · exact Or.inr hy
  · have hcnt := placeFold_count (v * 4 + 17) ((data.map byteBits).flatten)
      (traversal (v * 4 + 17)) (createMatrix v, 0) hshape (traversal_bounds (by omega))
    dsimp only at hcnt
    have hzero : unsetCount (placeData (createMatrix v) (v * 4 + 17) data).1 = 0 := by
      refine unsetCount_eq_zero (v * 4 + 17) _ ?_ ?_
      · rw [placeData_eq]
        exact matShape_placeFold _ _ _ hshape
      · intro r c hr hc
        obtain ⟨y, hy⟩ := hsome r c hr hc
        simp [hy]
    rw [placeData_eq] at hzero ⊢
    omega

end

/-! ## Lemmas: masking -/

theorem get2_rangeMap (f : Nat → Nat → Nat) (n r c : Nat) (hr : r < n) (hc : c < n) :
    get2 ((List.range n).map (fun r => (List.range n).map (fun c => f r c))) r c = f r c := by
  unfold get2
  rw [List.getD_eq_getElem?_getD, List.getD_eq_getElem?_getD]
  rw [List.getElem?_map, List.getElem?_range hr]
  simp only [Option.map_some', Option.getD_some]
  rw [List.getElem?_map, List.getElem?_range hc]
  rfl

theorem maskedCopy_cell (m : QMatrix) (size r c : Nat) (hr : r < size) (hc : c < size) :
    get2 (maskedCopy m size) r c =
      if mcell (createMatrix ((size - 17) / 4)) r c = none ∧ (r + c) % 2 = 0
      then ((mcell m r c).getD 0) ^^^ 1 else (mcell m r c).getD 0 := by
  unfold maskedCopy
  dsimp only
  rw [get2_rangeMap _ size r c hr hc]
  rw [get2_rangeMap _ size r c hr hc]

/-! ## Lemmas: version selection -/

theorem pickVersion_version_closed (L : Nat) :
    (pickVersion L).version =
      if L ≤ 14 then 1 else if L ≤ 26 then 2 else if L ≤ 42 then 3 else if L ≤ 62 then 4
      else if L ≤ 84 then 5 else if L ≤ 106 then 6 else if L ≤ 122 then 7
      else if L ≤ 150 then 8 else if L ≤ 178 then 9 else 10 := by
  unfold pickVersion VERSION_TABLE
  simp only [pickLoop, entryBlocks, reduceDcw]
  norm_num [List.replicate, List.foldl]
  by_cases h1 : L ≤ 14
  · rw [if_pos (show 12 + L * 8 ≤ 128 by omega), if_pos h1]
  · rw [if_neg (show ¬ (12 + L * 8 ≤ 128) by omega), if_neg h1]
    by_cases h2 : L ≤ 26
    · rw [if_pos (show 12 + L * 8 ≤ 224 by omega), if_pos h2]
    · rw [if_neg (show ¬ (12 + L * 8 ≤ 224) by omega), if_neg h2]
      by_cases h3 : L ≤ 42
      · rw [if_pos (show 12 + L * 8 ≤ 352 by omega), if_pos h3]
      · rw [if_neg (show ¬ (12 + L * 8 ≤ 352) by omega), if_neg h3]
        by_cases h4 : L ≤ 62
        · rw [if_pos (show 12 + L * 8 ≤ 512 by omega), if_pos h4]
        · rw [if_neg (show ¬ (12 + L * 8 ≤ 512) by omega), if_neg h4]
          by_cases h5 : L ≤ 84
          · rw [if_pos (show 12 + L * 8 ≤ 688 by omega), if_pos h5]
          · rw [if_neg (show ¬ (12 + L * 8 ≤ 688) by omega), if_neg h5]
            by_cases h6 : L ≤ 106
            · rw [if_pos (show 12 + L * 8 ≤ 864 by omega), if_pos h6]
            · rw [if_neg (show ¬ (12 + L * 8 ≤ 864) by omega), if_neg h6]
              by_cases h7 : L ≤ 122
              · rw [if_pos (show 12 + L * 8 ≤ 992 by omega), if_pos h7]
              · rw [if_neg (show ¬ (12 + L * 8 ≤ 992) by omega), if_neg h7]
                by_cases h8 : L ≤ 150
                · rw [if_pos (show 12 + L * 8 ≤ 1216 by omega), if_pos h8]
                · rw [if_neg (show ¬ (12 + L * 8 ≤ 1216) by omega), if_neg h8]
                  by_cases h9 : L ≤ 178
                  · rw [if_pos (show 12 + L * 8 ≤ 1440 by omega), if_pos h9]
                  · rw [if_neg (show ¬ (12 + L * 8 ≤ 1440) by omega), if_neg h9]
                    split <;> rfl

theorem pickVersion_ge179 (L : Nat) (h : 179 ≤ L) :
    pickVersion L = ⟨10, 216, 26, [(43, 26), (43, 26), (43, 26), (43, 26), (43, 26)]⟩ := by
  unfold pickVersion VERSION_TABLE
  simp only [pickLoop, entryBlocks, reduceDcw]
  norm_num [List.replicate, List.foldl]
  rw [if_neg (show ¬ (12 + L * 8 ≤ 128) by omega)]
  rw [if_neg (show ¬ (12 + L * 8 ≤ 224) by omega)]
  rw [if_neg (show ¬ (12 + L * 8 ≤ 352) by omega)]
  rw [if_neg (show ¬ (12 + L * 8 ≤ 512) by omega)]
  rw [if_neg (show ¬ (12 + L * 8 ≤ 688) by omega)]
  rw [if_neg (show ¬ (12 + L * 8 ≤ 864) by omega)]
  rw [if_neg (show ¬ (12 + L * 8 ≤ 992) by omega)]
  rw [if_neg (show ¬ (12 + L * 8 ≤ 1216) by omega)]
  rw [if_neg (show ¬ (12 + L * 8 ≤ 1440) by omega)]
  split <;> rfl

/-! ## Lemmas: encoder success and failure -/

theorem encodeDataByte_isSome_iff (data : List Nat) (version : Nat)
    (blocks : List (Nat × Nat)) :
    (encodeDataByte data version blocks).isSome ↔
      ([0, 1, 0, 0] ++ padStartZeros (natToBits data.length) (if version ≤ 9 then 8 else 16)
        ++ (data.map byteBits).flatten).length ≤ reduceDcw blocks * 8 := by
  unfold encodeDataByte
  dsimp only
  split
  · split
    · rename_i hlt
      simp only [Option.isSome_none, Bool.false_eq_true, false_iff]
      intro hcon
      omega
    · rename_i hge
      simp only [Option.isSome_some, true_iff]
      omega
  · split
    · rename_i hlt
      simp only [Option.isSome_none, Bool.false_eq_true, false_iff]
      intro hcon
      omega
    · rename_i hge
      simp only [Option.isSome_some, true_iff]
      omega

theorem byteBits_length_of_le (cc : Nat) (h : cc ≤ 255) : (byteBits cc).length = 8 := by
  have hall : ∀ x : Fin 256, (byteBits (x : Nat)).length = 8 := by decide
  exact hall ⟨cc, by omega⟩

theorem byteStream_length (data : List Nat) (h : ∀ cc ∈ data, cc ≤ 255) :
    ((data.map byteBits).flatten).length = 8 * data.length := by
  induction data with
  | nil => simp
  | cons a t ih =>
    simp only [List.map_cons, List.flatten_cons, List.length_append, List.length_cons]
    rw [byteBits_length_of_le a (h a (List.mem_cons_self a t)),
      ih (fun cc hcc => h cc (List.mem_cons_of_mem a hcc))]
    ring

theorem padStartZeros_length (bits : List Nat) (w : Nat) :
    (padStartZeros bits w).length = max w bits.length := by
  unfold padStartZeros
  rw [List.length_append, List.length_replicate]
  omega

theorem fits_up_to_212 : ∀ L : Fin 213,
    4 + (padStartZeros (natToBits (L : Nat))
        (if (pickVersion (L : Nat)).version ≤ 9 then 8 else 16)).length
      + 8 * (L : Nat) ≤ reduceDcw (pickVersion (L : Nat)).blocks * 8 := by
  decide

theorem strCodes_length (s : String) : (strCodes s).length = s.length := by
  rw [strCodes, List.length_map]
  rfl

theorem generateQrMatrix_isSome_iff (s : String)
    (h : ∀ ch ∈ s.toList, ch.toNat ≤ 255) :
    (generateQrMatrix s).isSome ↔ s.length ≤ 212 := by
  have hcodes : ∀ cc ∈ strCodes s, cc ≤ 255 := by
    intro cc hcc
    rw [strCodes, List.mem_map] at hcc
    obtain ⟨ch, hch, rfl⟩ := hcc
    exact h ch hch
  unfold generateQrMatrix
  dsimp only
  rw [Option.isSome_map', encodeDataByte_isSome_iff, ← strCodes_length s]
  rw [List.length_append, List.length_append, byteStream_length _ hcodes]
  have h4 : ([0, 1, 0, 0] : List Nat).length = 4 := rfl
  rw [h4]
  constructor
  · intro hle
    by_contra hgt
    rw [pickVersion_ge179 _ (by omega)] at hle
    norm_num [reduceDcw, List.foldl, padStartZeros_length] at hle
    omega
  · intro hle
    have := fits_up_to_212 ⟨(strCodes s).length, by omega⟩
    dsimp only at this
    omega

theorem genUpi_isSome_iff (p : UpiQrParams)
    (h : ∀ ch ∈ (buildUpiUri p).toList, ch.toNat ≤ 255) :
    (generateUpiQrCode p).isSome ↔ (buildUpiUri p).length ≤ 212 := by
  unfold generateUpiQrCode
  dsimp only
  rw [Option.isSome_map']
  exact generateQrMatrix_isSome_iff _ h

/-! ## Claim theorems -/

/-- **C1** (counterexample): the claim says the whole encode pipeline
never throws and silently falls back to a version-10 symbol on overflow.
It is false: for `overflowParams` (built URI of 249 ASCII bytes, beyond
version 10's 212-byte capacity) `encodeDataByte` computes a negative
terminator length and `'0'.repeat` throws a `RangeError`, modelled by
`none` — no data URI is produced. -/
theorem c1_overflow_throws : generateUpiQrCode overflowParams = none := by
  have h : ∀ ch ∈ (buildUpiUri overflowParams).toList, ch.toNat ≤ 255 := by decide
  have hlen : ¬ (buildUpiUri overflowParams).length ≤ 212 := by decide
  rcases hopt : generateUpiQrCode overflowParams with _ | x
  · rfl
  · exact absurd ((genUpi_isSome_iff overflowParams h).mp (by rw [hopt]; rfl)) hlen

/-- **C1** (amended): for every parameter object whose built URI consists
of byte-range characters, `generateUpiQrCode` returns an image data URI
exactly when the URI is at most 212 bytes (the version-10 byte-mode
capacity); for longer payloads `encodeDataByte` throws (`none`) instead
of silently producing a version-10 symbol. -/
theorem c1_encode_succeeds_iff (p : UpiQrParams)
    (h : ∀ ch ∈ (buildUpiUri p).toList, ch.toNat ≤ 255) :
    (generateUpiQrCode p).isSome ↔ (buildUpiUri p).length ≤ 212 :=
  genUpi_isSome_iff p h

theorem c1_encode_succeeds_iff_witness :
    (generateUpiQrCode smallParams).isSome ↔ (buildUpiUri smallParams).length ≤ 212 :=
  c1_encode_succeeds_iff smallParams (by decide)

/-- **C2**: the claim says the final matrix returned by
`generateQrMatrix` has the dark module (row `size - 8`, column 8) set to
1.  The template does fix that cell black (second conjunct), but the
bottom format-information loop of `applyMask` runs `i = 0..7` over rows
`size-8 .. size-1` and overwrites the dark module with
`FORMAT_BITS[14] = 0`: on input `"A"` (version 1, `size = 21`) the final
cell `(13, 8)` is 0, not 1. -/
theorem c2_dark_module_overwritten :
    (generateQrMatrix "A").map (fun m => (m.getD 13 []).getD 8 2) = some 0 ∧
    mcell (createMatrix 1) 13 8 = some 1 := by
  exact ⟨by decide, by decide⟩

/-- **C3**: the claim says the record returned by `pickVersion` always
has its block data-codeword counts summing to `totalDcw`.  That holds
for every length selecting versions 1-9 (first conjunct), but fails for
version 10 and the overflow fallback: the table row for version 10 lists
`4×43 + 1×43 = 215` data codewords against `totalCw = 216` (the QR
standard has 44 in the second group). -/
theorem c3_block_sum_mismatch :
    (∀ L : Fin 179, reduceDcw (pickVersion (L : Nat)).blocks = (pickVersion (L : Nat)).totalDcw) ∧
    reduceDcw (pickVersion 179).blocks = 215 ∧ (pickVersion 179).totalDcw = 216 ∧
    reduceDcw (pickVersion 1000).blocks = 215 ∧ (pickVersion 1000).totalDcw = 216 := by
  exact ⟨by decide, by decide, by decide, by decide, by decide⟩

theorem c4_place_data_complete_witness :
    (placeData (createMatrix 2) (2 * 4 + 17) [7, 255]).2 = unsetCount (createMatrix 2) :=
  (c4_place_data_complete 2 (by omega) (by omega) [7, 255]).2.2

/-- **C5**: the mask pass of `applyMask` (`maskedCopy`) changes only
cells that the freshly rebuilt template leaves unset and whose
coordinates satisfy `(r + c) % 2 = 0` — those are XORed with 1 — while
every cell the template fixes (in particular every finder, separator,
timing, alignment, dark-module and format-reservation cell) keeps
exactly the bit it had before the mask pass. -/
theorem c5_mask_flips_only_unset (version : Nat) (m : QMatrix) (r c : Nat)
    (hr : r < version * 4 + 17) (hc : c < version * 4 + 17) :
    (get2 (maskedCopy m (version * 4 + 17)) r c =
      if mcell (createMatrix version) r c = none ∧ (r + c) % 2 = 0
      then ((mcell m r c).getD 0) ^^^ 1 else (mcell m r c).getD 0) ∧
    (∀ x, mcell (createMatrix version) r c = some x →
      get2 (maskedCopy m (version * 4 + 17)) r c = (mcell m r c).getD 0) := by
  have hv : (version * 4 + 17 - 17) / 4 = version := by omega
  have h1 := maskedCopy_cell m (version * 4 + 17) r c hr hc
  rw [hv] at h1
  refine ⟨h1, ?_⟩
  intro x hx
  rw [h1, if_neg]
  rintro ⟨hnone, _⟩
  rw [hx] at hnone
  exact Option.some_ne_none x hnone

theorem c5_mask_flips_only_unset_witness :
    get2 (maskedCopy (createMatrix 1) (1 * 4 + 17)) 9 9 = 1 := by
  have h := (c5_mask_flips_only_unset 1 (createMatrix 1) 9 9 (by omega) (by omega)).1
  rw [h]
  decide

/-- **C6** (counterexample): the claim says every emitted value except
the currency and the amount is percent-encoded, naming the merchant
category code among them.  It is false: `buildUpiUri` emits
`mc=${params.mcc}` verbatim — for `mcc = "12 3"` the part is
`"mc=12 3"`, not `"mc=" ++ encodeURIComponent "12 3" = "mc=12%203"`. -/
theorem c6_mcc_not_encoded :
    buildUpiUriParts mccParams = ["upi://pay?pa=m%40u", "cu=INR", "mc=12 3"] ∧
    encodeURIComponent "12 3" = "12%203" ∧
    ("mc=12 3" : String) ≠ "mc=" ++ encodeURIComponent "12 3" := by
  exact ⟨by decide, by decide, by decide⟩

/-- **C6** (amended): in the query string produced by `buildUpiUri`, the
payee address, payee name, note and transaction reference values are the
percent-encoding of the corresponding input; the currency code, the
numeric amount **and the merchant category code** are emitted raw. -/
theorem c6_values_encoded_except (p : UpiQrParams) :
    ("upi://pay?pa=" ++ encodeURIComponent p.vpa) ∈ buildUpiUriParts p ∧
    ("cu=" ++ p.currency.getD "INR") ∈ buildUpiUriParts p ∧
    (p.payeeName ≠ "" → ("pn=" ++ encodeURIComponent p.payeeName) ∈ buildUpiUriParts p) ∧
    (p.note ≠ "" → ("tn=" ++ encodeURIComponent p.note) ∈ buildUpiUriParts p) ∧
    (p.txnRefId ≠ "" → ("tr=" ++ encodeURIComponent p.txnRefId) ∈ buildUpiUriParts p) ∧
    (p.mcc ≠ "" → ("mc=" ++ p.mcc) ∈ buildUpiUriParts p) := by
  unfold buildUpiUriParts
  refine ⟨by simp, by simp, fun hne => by simp [hne], fun hne => by simp [hne],
    fun hne => by simp [hne], fun hne => by simp [hne]⟩

theorem c6_values_encoded_except_witness :
    ("tn=" ++ encodeURIComponent smallParams.note) ∈ buildUpiUriParts smallParams :=
  (c6_values_encoded_except smallParams).2.2.2.1 (by decide)

/-- **C7**: the GF(256) multiplication built from the `0x11d` exponent
and log tables annihilates with 0, has 1 as left identity on nonzero
elements, and is commutative on all of `[0, 255]²`. -/
theorem c7_gfMul_properties :
    (∀ a : Nat, a < 256 → gfMul a 0 = 0 ∧ gfMul 0 a = 0) ∧
    (∀ a : Nat, a < 256 → a ≠ 0 → gfMul 1 a = a) ∧
    (∀ a b : Nat, a < 256 → b < 256 → gfMul a b = gfMul b a) := by
  refine ⟨?_, ?_, ?_⟩
  · intro a _
    constructor <;> simp [gfMul]
  · intro a ha hne
    exact (by decide : ∀ x : Fin 256, (x : Nat) ≠ 0 → gfMul 1 (x : Nat) = (x : Nat))
      ⟨a, ha⟩ hne
  · intro a b _ _
    by_cases ha : a = 0
    · subst ha
      by_cases hb : b = 0 <;> simp [gfMul, hb]
    · by_cases hb : b = 0
      · simp [gfMul, ha, hb]
      · simp [gfMul, ha, hb, Nat.add_comm]

theorem c7_gfMul_properties_witness :
    gfMul 5 0 = 0 ∧ gfMul 1 7 = 7 ∧ gfMul 3 5 = gfMul 5 3 :=
  ⟨(c7_gfMul_properties.1 5 (by omega)).1,
   c7_gfMul_properties.2.1 7 (by omega) (by omega),
   c7_gfMul_properties.2.2 3 5 (by omega) (by omega)⟩

theorem pickLoop_version_lb (n v : Nat) : ∀ t : List VEntry,
    (∀ e ∈ t, v ≤ e.ver) → v ≤ 10 → v ≤ (pickLoop n t).version := by
  intro t
  induction t with
  | nil =>
    intro _ h10
    have hfb : (pickLoop n []).version = 10 := rfl
    omega
  | cons e rest ih =>
    intro hall h10
    rw [pickLoop]
    split <;> split
    all_goals
      first
        | exact hall e (List.mem_cons_self e rest)
        | exact ih (fun e' he' => hall e' (List.mem_cons_of_mem _ he')) h10

theorem pickLoop_mono (m n : Nat) (h : m ≤ n) : ∀ t : List VEntry,
    List.Pairwise (fun a b => a.ver ≤ b.ver) t → (∀ e ∈ t, e.ver ≤ 10) →
    (pickLoop m t).version ≤ (pickLoop n t).version := by
  intro t
  induction t with
  | nil => intro _ _; exact le_refl _
  | cons e rest ih =>
    intro hsort hle
    rw [pickLoop, pickLoop]
    have hlb := pickLoop_version_lb n e.ver rest
      (fun e' he' => (List.pairwise_cons.mp hsort).1 e' he')
      (hle e (List.mem_cons_self e rest))
    have hih := ih (List.pairwise_cons.mp hsort).2
      (fun e' he' => hle e' (List.mem_cons_of_mem _ he'))
    split <;> split_ifs with hm hn <;>
      first
        | exact le_refl _
        | exact hlb
        | exact hih
        | omega

/-- **C8**: version selection is monotonic in the payload byte length:
a longer payload never selects a smaller version. -/
theorem c8_version_monotonic (m n : Nat) (h : m ≤ n) :
    (pickVersion m).version ≤ (pickVersion n).version :=
  pickLoop_mono m n h VERSION_TABLE (by decide) (by decide)

theorem c8_version_monotonic_witness :
    (pickVersion 5).version ≤ (pickVersion 200).version :=
  c8_version_monotonic 5 200 (by omega)

/-- **C9**: `generateUpiQrCode` is a pure function of its parameter
object: it is deterministic — two calls with equal `UpiQrParams` yield
the same result — and, being a function in this embedding of the
stateless source (the GF tables are only ever read after their one-time
construction), mutates no state observable by a later call. -/
theorem c9_deterministic (p q : UpiQrParams) (h : p = q) :
    generateUpiQrCode p = generateUpiQrCode q := by
  rw [h]

theorem c9_deterministic_witness :
    generateUpiQrCode smallParams = generateUpiQrCode smallParams :=
  c9_deterministic smallParams smallParams rfl

/-- **C10**: `validateUpiId` trims surrounding whitespace and classifies:
it returns `valid = true` exactly when the trimmed input contains exactly
one `@` and matches `localpart@handle` with the regex's character classes
and length bounds (`upiRegexTest`), and whenever it returns
`valid = false` it carries a non-empty message. -/
theorem c10_validate_classifier (s : String) :
    ((validateUpiId s).valid = true ↔
      atCount (jsTrim s) = 1 ∧ upiRegexTest (jsTrim s) = true) ∧
    ((validateUpiId s).valid = false →
      ∃ msg, (validateUpiId s).message = some msg ∧ msg ≠ "") := by
  unfold validateUpiId
  dsimp only
  split_ifs with h1 h2 h3
  · have htrim : jsTrim s = "" := by
      rcases h1 with rfl | h
      · decide
      · exact h
    constructor
    · simp only [Bool.false_eq_true, false_iff]
      rintro ⟨hc, _⟩
      rw [htrim] at hc
      exact absurd hc (by decide)
    · intro _
      exact ⟨"UPI ID is required", rfl, by decide⟩
  · constructor
    · simp only [Bool.false_eq_true, false_iff]
      rintro ⟨hc, _⟩
      exact h2 hc
    · intro _
      exact ⟨"UPI ID must contain exactly one @ symbol (e.g. name@upi)", rfl, by decide⟩
  · constructor
    · exact iff_of_true rfl ⟨Decidable.not_not.mp h2, h3⟩
    · intro hcon
      exact absurd hcon (by decide)
  · constructor
    · simp only [Bool.false_eq_true, false_iff]
      rintro ⟨_, hregex⟩
      exact h3 hregex
    · intro _
      refine ⟨"Invalid UPI ID format. Expected: username@handle (e.g. merchant@upi, john.doe@oksbi)",
        rfl, by decide⟩

theorem c10_validate_classifier_witness :
    (validateUpiId "merchant@upi").valid = true :=
  ((c10_validate_classifier "merchant@upi").1).mpr (by decide)

end UpiQr
